import Mathlib

/-!
# Redis result backend of goravel/machinery

A shallow embedding of `backends/redis/goredis.go`.

Conventions of the embedding.

* A Go `string` is a Lean `String`; a Go `int` is an `Int`, wrapped to 64 bits
  where the source multiplies.
* A Go function returning `(*T, error)` that yields either `(nil, err)` or
  `(ptr, nil)` is an `Except Err T`.  A function whose two results are both
  meaningful (`(bool, error)`, a partially filled slice with an error) returns
  a pair whose second component is `Option Err`, `none` standing for `nil`.
* The Redis server is a map from keys to entries, passed explicitly.
  An operation that writes returns the store it leaves behind.  Connectivity
  failures of the client are outside the model: `GET` of an absent key yields
  `redis.Nil`, every other command succeeds.
* `encoding/json` is a parameter (`Codec`): the operations are written against
  an arbitrary marshal/decode pair and the theorems state which property of the
  pair they use.
* `time.Now()` is an explicit argument `now`.
-/

namespace Machinery

/-! ## Data model -/

/-- Modelled from the spec: the `tasks` package (`tasks/state.go`) is not among
the sources; the `Status` enumeration of the data model: Pending, Received,
Started, Retry, Success, Failure. -/
inductive Status where
  | Pending
  | Received
  | Started
  | Retry
  | Success
  | Failure
  deriving DecidableEq, Repr

/-- Modelled from the spec: `tasks.TaskResult` is not among the sources; one
typed result value, its number kept as text. -/
structure TaskResult where
  Type_ : String
  Value : String
  deriving DecidableEq, Repr

/-- Modelled from the spec: `tasks.TaskState` is not among the sources; the
record of the data model with the fields TaskUUID, TaskName, Status (the field
read by the source as `State`), Results, Error and CreatedAt. -/
structure TaskState where
  TaskUUID : String
  TaskName : String
  State : Status
  Results : List TaskResult
  Error : String
  CreatedAt : Nat
  deriving DecidableEq, Repr

/-- Modelled from the spec: `tasks.GroupMeta` is not among the sources; the
record of the data model with the fields GroupUUID, TaskUUIDs, CreatedAt and
ChordTriggered (initially false). -/
structure GroupMeta where
  GroupUUID : String
  TaskUUIDs : List String
  ChordTriggered : Bool
  CreatedAt : Nat
  deriving DecidableEq, Repr

/-- Modelled from the spec: `tasks.Signature` is not among the sources; the
descriptor of a task, of which the backend reads the identifier and the name
(the tests also set `GroupUUID`). -/
structure Signature where
  UUID : String
  Name : String
  GroupUUID : String
  deriving DecidableEq, Repr

/-- Errors that the backend hands to its caller: `redis.Nil` (key absent), a
JSON decoding error, a JSON encoding error. -/
inductive Err where
  | redisNil
  | decode (msg : String)
  | marshal (msg : String)
  deriving DecidableEq, Repr

/-- The text of an error, as `err.Error()` gives it for `redis.Nil`. -/
def Err.Error : Err → String
  | .redisNil => "redis: nil"
  | .decode msg => msg
  | .marshal msg => msg

/-! ## Configuration (`config/config.go`) -/

/-- Default time, in seconds, used to expire task states and group metadata. -/
def DefaultResultsExpireIn : Int := 3600

/-- The fields of `config.RedisConfig` read by the backend. -/
structure RedisConfig where
  MasterName : String
  ClusterEnabled : Bool
  deriving DecidableEq, Repr

/-- The fields of `config.Config` read by the backend; `Redis` is a pointer
that may be nil. -/
structure Config where
  ResultsExpireIn : Int
  Redis : Option RedisConfig
  deriving DecidableEq, Repr

/-! ## JSON codec and Redis store -/

/-- The four uses of `encoding/json` in the backend, over stored values of
type `β`: `json.Marshal` of a task state and of a group, and
`json.NewDecoder(..).Decode` into each of the two record types. -/
structure Codec (β : Type) where
  marshalTaskState : TaskState → Except Err β
  marshalGroupMeta : GroupMeta → Except Err β
  decodeTaskState : β → Except Err TaskState
  decodeGroupMeta : β → Except Err GroupMeta

/-- Marshalling never fails and decoding gives back the marshalled record. -/
def Codec.Lawful {β : Type} (c : Codec β) : Prop :=
  (∀ s : TaskState, ∃ bytes, c.marshalTaskState s = .ok bytes ∧ c.decodeTaskState bytes = .ok s) ∧
  (∀ g : GroupMeta, ∃ bytes, c.marshalGroupMeta g = .ok bytes ∧ c.decodeGroupMeta bytes = .ok g)

/-- One Redis entry: the stored bytes and the expiration they were written
with, a `time.Duration` in nanoseconds. -/
structure Entry (β : Type) where
  value : β
  expiration : Int

/-- The contents of the Redis server. -/
def Store (β : Type) : Type := String → Option (Entry β)

/-- The server with no key. -/
def Store.empty {β : Type} : Store β := fun _ => none

/-- Redis `GET key` followed by `.Bytes()`: `redis.Nil` when the key is absent. -/
def Get {β : Type} (rdb : Store β) (key : String) : Except Err β :=
  match rdb key with
  | none => .error .redisNil
  | some e => .ok e.value

/-- Redis `SET key value` with an expiration. -/
def Set {β : Type} (rdb : Store β) (key : String) (value : β) (expiration : Int) : Store β :=
  fun k => if k = key then some ⟨value, expiration⟩ else rdb k

/-- Redis `DEL key`; deleting an absent key is not an error. -/
def Del {β : Type} (rdb : Store β) (key : String) : Store β :=
  fun k => if k = key then none else rdb k

/-- The error of the first failed command, if any. -/
def cmdsFirstErr {β : Type} : List (Except Err β) → Option Err
  | [] => none
  | .error err :: _ => some err
  | .ok _ :: rest => cmdsFirstErr rest

/-- The go-redis `Pipelined` call of `getStates`: one `GET` per key, all
executed; it returns the list of commands and the error of the first failed
command, if any. -/
def Pipelined {β : Type} (rdb : Store β) (keys : List String) :
    List (Except Err β) × Option Err :=
  let cmders := keys.map (Get rdb)
  (cmders, cmdsFirstErr cmders)

/-- The backend: its configuration and the JSON codec it is linked with. -/
structure Backend (β : Type) where
  cnf : Config
  json : Codec β

/-! ## Expiration -/

/-- A Go `int64` product: the mathematical value reduced to 64 bits, two's
complement. -/
def wrapInt64 (x : Int) : Int := (x + 2 ^ 63) % 2 ^ 64 - 2 ^ 63

/-- The constant `time.Second`, in nanoseconds. -/
def Second : Int := 1000000000

/-- Expiration for a stored task state (`getExpiration`). -/
def getExpiration {β : Type} (b : Backend β) : Int :=
  let expiresIn := b.cnf.ResultsExpireIn
  let expiresIn := if expiresIn = 0 then DefaultResultsExpireIn else expiresIn
  wrapInt64 (expiresIn * Second)

/-! ## Task states -/

/-- Modelled from the spec: `tasks.TaskState.IsCompleted` (`tasks/state.go`),
the test applied to each member state by the counting loop of `GroupCompleted`,
is not among the sources.  The spec words the check as the count of "states
whose `Status` is a terminal-success status (Success)" and adds that
"terminal-failure states do NOT count toward completion in this check". -/
def TaskState.IsCompleted (taskState : TaskState) : Bool :=
  taskState.State = Status.Success

/-- Modelled from the spec: `tasks.NewPendingTaskState` is not among the
sources; a Pending record for the signature, without payload, created now. -/
def NewPendingTaskState (signature : Signature) (now : Nat) : TaskState :=
  { TaskUUID := signature.UUID, TaskName := signature.Name, State := .Pending,
    Results := [], Error := "", CreatedAt := now }

/-- Modelled from the spec: `tasks.NewReceivedTaskState` is not among the
sources; a Received record for the signature, without payload. -/
def NewReceivedTaskState (signature : Signature) (now : Nat) : TaskState :=
  { TaskUUID := signature.UUID, TaskName := signature.Name, State := .Received,
    Results := [], Error := "", CreatedAt := now }

/-- Modelled from the spec: `tasks.NewStartedTaskState` is not among the
sources; a Started record for the signature, without payload. -/
def NewStartedTaskState (signature : Signature) (now : Nat) : TaskState :=
  { TaskUUID := signature.UUID, TaskName := signature.Name, State := .Started,
    Results := [], Error := "", CreatedAt := now }

/-- Modelled from the spec: `tasks.NewRetryTaskState` is not among the
sources; a Retry record for the signature, without payload. -/
def NewRetryTaskState (signature : Signature) (now : Nat) : TaskState :=
  { TaskUUID := signature.UUID, TaskName := signature.Name, State := .Retry,
    Results := [], Error := "", CreatedAt := now }

/-- Modelled from the spec: `tasks.NewSuccessTaskState` is not among the
sources; a Success record carrying the results sequence. -/
def NewSuccessTaskState (signature : Signature) (results : List TaskResult) (now : Nat) :
    TaskState :=
  { TaskUUID := signature.UUID, TaskName := signature.Name, State := .Success,
    Results := results, Error := "", CreatedAt := now }

/-- Modelled from the spec: `tasks.NewFailureTaskState` is not among the
sources; a Failure record carrying the error string. -/
def NewFailureTaskState (signature : Signature) (err : String) (now : Nat) : TaskState :=
  { TaskUUID := signature.UUID, TaskName := signature.Name, State := .Failure,
    Results := [], Error := err, CreatedAt := now }

/-- The latest task state (`GetState`): `(nil, err)` is `.error err`. -/
def GetState {β : Type} (b : Backend β) (rdb : Store β) (taskUUID : String) :
    Except Err TaskState :=
  match Get rdb taskUUID with
  | .error err => .error err
  | .ok item =>
    match b.json.decodeTaskState item with
    | .error err => .error err
    | .ok state => .ok state

/-- Deletes the stored task state (`PurgeState`); returns the error and the
store afterwards. -/
def PurgeState {β : Type} (_b : Backend β) (rdb : Store β) (taskUUID : String) :
    Option Err × Store β :=
  (none, Del rdb taskUUID)

/-- Deletes the stored group metadata (`PurgeGroupMeta`). -/
def PurgeGroupMeta {β : Type} (_b : Backend β) (rdb : Store β) (groupUUID : String) :
    Option Err × Store β :=
  (none, Del rdb groupUUID)

/-- Saves the task state under its UUID (`updateState`). -/
def updateState {β : Type} (b : Backend β) (rdb : Store β) (taskState : TaskState) :
    Option Err × Store β :=
  match b.json.marshalTaskState taskState with
  | .error err => (some err, rdb)
  | .ok encoded =>
    let expiration := getExpiration b
    (none, Set rdb taskState.TaskUUID encoded expiration)

/-- Carries `CreatedAt` and `TaskName` over from the stored record when it can
be read (`mergeNewTaskState`); the Go method mutates `newState` in place. -/
def mergeNewTaskState {β : Type} (b : Backend β) (rdb : Store β) (newState : TaskState) :
    TaskState :=
  match GetState b rdb newState.TaskUUID with
  | .ok state => { newState with CreatedAt := state.CreatedAt, TaskName := state.TaskName }
  | .error _ => newState

/-- Updates task state to PENDING. -/
def SetStatePending {β : Type} (b : Backend β) (rdb : Store β) (signature : Signature)
    (now : Nat) : Option Err × Store β :=
  let taskState := NewPendingTaskState signature now
  updateState b rdb taskState

/-- Updates task state to RECEIVED. -/
def SetStateReceived {β : Type} (b : Backend β) (rdb : Store β) (signature : Signature)
    (now : Nat) : Option Err × Store β :=
  let taskState := NewReceivedTaskState signature now
  let taskState := mergeNewTaskState b rdb taskState
  updateState b rdb taskState

/-- Updates task state to STARTED. -/
def SetStateStarted {β : Type} (b : Backend β) (rdb : Store β) (signature : Signature)
    (now : Nat) : Option Err × Store β :=
  let taskState := NewStartedTaskState signature now
  let taskState := mergeNewTaskState b rdb taskState
  updateState b rdb taskState

/-- Updates task state to RETRY. -/
def SetStateRetry {β : Type} (b : Backend β) (rdb : Store β) (signature : Signature)
    (now : Nat) : Option Err × Store β :=
  let taskState := NewRetryTaskState signature now
  let taskState := mergeNewTaskState b rdb taskState
  updateState b rdb taskState

/-- Updates task state to SUCCESS. -/
def SetStateSuccess {β : Type} (b : Backend β) (rdb : Store β) (signature : Signature)
    (results : List TaskResult) (now : Nat) : Option Err × Store β :=
  let taskState := NewSuccessTaskState signature results now
  let taskState := mergeNewTaskState b rdb taskState
  updateState b rdb taskState

/-- Updates task state to FAILURE. -/
def SetStateFailure {β : Type} (b : Backend β) (rdb : Store β) (signature : Signature)
    (err : String) (now : Nat) : Option Err × Store β :=
  let taskState := NewFailureTaskState signature err now
  let taskState := mergeNewTaskState b rdb taskState
  updateState b rdb taskState

/-! ## Groups -/

/-- Creates and saves a group metadata object (`InitGroup`). -/
def InitGroup {β : Type} (b : Backend β) (rdb : Store β) (groupUUID : String)
    (taskUUIDs : List String) (now : Nat) : Option Err × Store β :=
  let groupMeta : GroupMeta :=
    { GroupUUID := groupUUID, TaskUUIDs := taskUUIDs, ChordTriggered := false,
      CreatedAt := now }
  match b.json.marshalGroupMeta groupMeta with
  | .error err => (some err, rdb)
  | .ok encoded =>
    let expiration := getExpiration b
    (none, Set rdb groupUUID encoded expiration)

/-- Retrieves group metadata (`getGroupMeta`): `(nil, err)` is `.error err`. -/
def getGroupMeta {β : Type} (b : Backend β) (rdb : Store β) (groupUUID : String) :
    Except Err GroupMeta :=
  match Get rdb groupUUID with
  | .error err => .error err
  | .ok item =>
    match b.json.decodeGroupMeta item with
    | .error err => .error err
    | .ok groupMeta => .ok groupMeta

/-- The loop of `getStates` over the commands of the pipeline, from index `i`:
the first command that failed or whose bytes do not decode ends the call with
the slice as filled so far. -/
def getStatesLoop {β : Type} (b : Backend β) :
    Nat → List (Except Err β) → List (Option TaskState) → List (Option TaskState) × Option Err
  | _, [], taskStates => (taskStates, none)
  | i, cmder :: cmders, taskStates =>
    match cmder with
    | .error err1 => (taskStates, some err1)
    | .ok stateBytes =>
      match b.json.decodeTaskState stateBytes with
      | .error err1 => (taskStates, some err1)
      | .ok taskState => getStatesLoop b (i + 1) cmders (taskStates.set i (some taskState))

/-- Multiple task states (`getStates`).  The slice has one pointer per UUID,
nil (`none`) until its state has been decoded. -/
def getStates {β : Type} (b : Backend β) (rdb : Store β) (taskUUIDs : List String) :
    List (Option TaskState) × Option Err :=
  let taskStates : List (Option TaskState) := List.replicate taskUUIDs.length none
  match Pipelined rdb taskUUIDs with
  | (_, some err) => (taskStates, some err)
  | (cmders, none) => getStatesLoop b 0 cmders taskStates

/-- The counting loop of `GroupCompleted`.  A nil pointer, which the Go loop
would dereference, is not counted; a slice that `getStates` returns without an
error holds no nil pointer (`getStates_ok_all_some`). -/
def countSuccessTasks : List (Option TaskState) → Nat
  | [] => 0
  | some taskState :: rest =>
    if taskState.IsCompleted then countSuccessTasks rest + 1 else countSuccessTasks rest
  | none :: rest => countSuccessTasks rest

/-- True if all tasks in a group finished (`GroupCompleted`). -/
def GroupCompleted {β : Type} (b : Backend β) (rdb : Store β) (groupUUID : String)
    (groupTaskCount : Int) : Bool × Option Err :=
  match getGroupMeta b rdb groupUUID with
  | .error err => (false, some err)
  | .ok groupMeta =>
    match getStates b rdb groupMeta.TaskUUIDs with
    | (_, some err) => (false, some err)
    | (taskStates, none) =>
      (decide ((countSuccessTasks taskStates : Int) = groupTaskCount), none)

/-- States of all tasks in the group (`GroupTaskStates`). -/
def GroupTaskStates {β : Type} (b : Backend β) (rdb : Store β) (groupUUID : String)
    (_groupTaskCount : Int) : List (Option TaskState) × Option Err :=
  match getGroupMeta b rdb groupUUID with
  | .error err => ([], some err)
  | .ok groupMeta => getStates b rdb groupMeta.TaskUUIDs

/-- Flags the chord as triggered (`TriggerChord`); returns whether the worker
should trigger the chord, the error, and the store afterwards. -/
def TriggerChord {β : Type} (b : Backend β) (rdb : Store β) (groupUUID : String) :
    (Bool × Option Err) × Store β :=
  match getGroupMeta b rdb groupUUID with
  | .error err => ((false, some err), rdb)
  | .ok groupMeta =>
    if groupMeta.ChordTriggered then ((false, none), rdb)
    else
      let groupMeta := { groupMeta with ChordTriggered := true }
      match b.json.marshalGroupMeta groupMeta with
      | .error err => ((false, some err), rdb)
      | .ok encoded =>
        let expiration := getExpiration b
        ((true, none), Set rdb groupUUID encoded expiration)

/-! ## Concurrent callers of `TriggerChord`

Each caller runs the body of `TriggerChord` in two atomic steps: the store read
of `getGroupMeta`, then the test of the flag together with the store write.
A schedule names, step by step, the caller that moves. -/

/-- Where one caller of `TriggerChord` stands. -/
inductive ChordCall where
  | start
  | read (groupMeta : GroupMeta)
  | done (shouldTrigger : Bool) (err : Option Err)
  deriving DecidableEq, Repr

/-- One atomic step of one caller. -/
def ChordCall.step {β : Type} (b : Backend β) (groupUUID : String) (rdb : Store β) :
    ChordCall → ChordCall × Store β
  | .start =>
    match getGroupMeta b rdb groupUUID with
    | .error err => (.done false (some err), rdb)
    | .ok groupMeta => (.read groupMeta, rdb)
  | .read groupMeta =>
    if groupMeta.ChordTriggered then (.done false none, rdb)
    else
      let groupMeta := { groupMeta with ChordTriggered := true }
      match b.json.marshalGroupMeta groupMeta with
      | .error err => (.done false (some err), rdb)
      | .ok encoded =>
        let expiration := getExpiration b
        (.done true none, Set rdb groupUUID encoded expiration)
  | .done shouldTrigger err => (.done shouldTrigger err, rdb)

/-- Runs a schedule: each element is the index of the caller that takes its
next step; an index past the callers moves nobody. -/
def runSchedule {β : Type} (b : Backend β) (groupUUID : String) :
    List Nat → List ChordCall × Store β → List ChordCall × Store β
  | [], st => st
  | i :: schedule, (callers, rdb) =>
    match callers.get? i with
    | none => runSchedule b groupUUID schedule (callers, rdb)
    | some caller =>
      let r := caller.step b groupUUID rdb
      runSchedule b groupUUID schedule (callers.set i r.1, r.2)

/-- The number of callers that have returned `shouldTrigger = true`. -/
def triggeredCount (callers : List ChordCall) : Nat :=
  callers.countP (fun c => decide (c = .done true none))

/-! ## Connection configuration -/

/-- The pieces of a string between occurrences of the separator; a string
without the separator is its only piece. -/
def splitChars (sep : Char) : List Char → List (List Char)
  | [] => [[]]
  | c :: cs =>
    if c = sep then [] :: splitChars sep cs
    else
      match splitChars sep cs with
      | [] => [[c]]
      | p :: ps => (c :: p) :: ps

/-- The pieces concatenated with the separator between them. -/
def joinChars (sep : List Char) : List (List Char) → List Char
  | [] => []
  | [p] => p
  | p :: q :: ps => p ++ sep ++ joinChars sep (q :: ps)

/-- Go `strings.Split(s, sep)` for a separator of one character. -/
def Split (s : String) (sep : Char) : List String :=
  (splitChars sep s.data).map String.mk

/-- Go `strings.Join(elems, sep)`. -/
def Join (elems : List String) (sep : String) : String :=
  String.mk (joinChars sep.data (elems.map String.data))

/-- The fields of `redis.UniversalOptions` set by `New`. -/
structure UniversalOptions where
  Addrs : List String
  DB : Int
  Password : String
  MasterName : String
  deriving DecidableEq, Repr

/-- What `New` builds: the options and whether the cluster client was chosen. -/
structure Client where
  ropt : UniversalOptions
  cluster : Bool
  deriving DecidableEq, Repr

/-- Creates the backend (`New`); `none` is the panic of `addrs[0]` on an empty
list. -/
def New (cnf : Config) (addrs : List String) (db : Int) : Option Client :=
  match addrs with
  | [] => none
  | addr0 :: others =>
    let parts := Split addr0 '@'
    let password := if parts.length ≥ 2 then Join parts.dropLast "@" else ""
    let addrs :=
      if parts.length ≥ 2 then parts.getLastD "" :: others else addr0 :: others
    let masterName :=
      match cnf.Redis with
      | some r => r.MasterName
      | none => ""
    let ropt : UniversalOptions :=
      { Addrs := addrs, DB := db, Password := password, MasterName := masterName }
    match cnf.Redis with
    | some r => some { ropt := ropt, cluster := r.ClusterEnabled }
    | none => some { ropt := ropt, cluster := false }

/-- A state-transition operation of the backend, with its payload. -/
inductive Transition where
  | pending
  | received
  | started
  | retry
  | success (results : List TaskResult)
  | failure (err : String)
  deriving DecidableEq, Repr

/-- The backend method that performs the transition. -/
def Transition.apply {β : Type} (t : Transition) (b : Backend β) (rdb : Store β)
    (signature : Signature) (now : Nat) : Option Err × Store β :=
  match t with
  | .pending => SetStatePending b rdb signature now
  | .received => SetStateReceived b rdb signature now
  | .started => SetStateStarted b rdb signature now
  | .retry => SetStateRetry b rdb signature now
  | .success results => SetStateSuccess b rdb signature results now
  | .failure err => SetStateFailure b rdb signature err now

/-! ## Reference codec

A codec whose stored value is the record itself, or bytes that decode as
neither record.  It is used to evaluate the operations on concrete stores. -/

/-- A stored document. -/
inductive Doc where
  | taskState (s : TaskState)
  | groupMeta (g : GroupMeta)
  | corrupt
  deriving DecidableEq, Repr

/-- The codec over `Doc`. -/
def docCodec : Codec Doc where
  marshalTaskState s := .ok (.taskState s)
  marshalGroupMeta g := .ok (.groupMeta g)
  decodeTaskState
    | .taskState s => .ok s
    | _ => .error (.decode "json: cannot unmarshal into TaskState")
  decodeGroupMeta
    | .groupMeta g => .ok g
    | _ => .error (.decode "json: cannot unmarshal into GroupMeta")

/-- A backend over `Doc` with the given expiration setting and no Redis
section, as `new(config.Config)` of the tests when the setting is 0. -/
def docBackend (resultsExpireIn : Int) : Backend Doc :=
  { cnf := { ResultsExpireIn := resultsExpireIn, Redis := none }, json := docCodec }

/-- A store holding one Pending record, written at time 1. -/
def pendingStore : Store Doc :=
  (SetStatePending (docBackend 0) Store.empty ⟨"testTaskUUID", "add", "testGroupUUID"⟩ 1).2

/-- A store holding a freshly initialised group of two tasks. -/
def freshGroupStore : Store Doc :=
  (InitGroup (docBackend 0) Store.empty "testGroupUUID" ["testTaskUUID1", "testTaskUUID2"] 1).2

/-- The store of `TestGroupCompletedGR` at its last check: the group of two
tasks, the second in state Success, the first in state Failure. -/
def failedMemberStore : Store Doc :=
  (SetStateFailure (docBackend 0)
    (SetStateSuccess (docBackend 0) freshGroupStore
      ⟨"testTaskUUID2", "", "testGroupUUID"⟩ [⟨"", ""⟩] 2).2
    ⟨"testTaskUUID1", "", "testGroupUUID"⟩ "Some error" 3).2

/-- The two member states of `failedMemberStore`, by UUID. -/
def failedMemberState (u : String) : TaskState :=
  if u = "testTaskUUID1" then
    NewFailureTaskState ⟨"testTaskUUID1", "", "testGroupUUID"⟩ "Some error" 3
  else
    NewSuccessTaskState ⟨"testTaskUUID2", "", "testGroupUUID"⟩ [⟨"", ""⟩] 2

/-- The group metadata that `freshGroupStore` holds. -/
def freshGroupMeta : GroupMeta :=
  { GroupUUID := "testGroupUUID", TaskUUIDs := ["testTaskUUID1", "testTaskUUID2"],
    ChordTriggered := false, CreatedAt := 1 }

/-! ## Basic facts about the store -/

theorem Get_Set_same {β : Type} (rdb : Store β) (key : String) (value : β) (expiration : Int) :
    Get (Set rdb key value expiration) key = .ok value := by
  simp [Get, Set]

theorem Get_Del_same {β : Type} (rdb : Store β) (key : String) :
    Get (Del rdb key) key = .error .redisNil := by
  simp [Get, Del]

theorem docCodec_lawful : docCodec.Lawful :=
  ⟨fun s => ⟨.taskState s, rfl, rfl⟩, fun g => ⟨.groupMeta g, rfl, rfl⟩⟩

theorem wrapInt64_of_fits (x : Int) (hlo : -9223372036854775808 ≤ x)
    (hhi : x ≤ 9223372036854775807) : wrapInt64 x = x := by
  unfold wrapInt64
  norm_num
  omega

/-! ## Expiration -/

/-- C6, as stated, fails: a negative `ResultsExpireIn` is not replaced by the
default; with -1 the expiration is -1 s, which is neither 3600 s nor positive. -/
theorem getExpiration_negative_setting :
    ¬ (0 < (docBackend (-1)).cnf.ResultsExpireIn) ∧
    getExpiration (docBackend (-1)) = -1 * Second ∧
    getExpiration (docBackend (-1)) ≠ DefaultResultsExpireIn * Second ∧
    ¬ (0 < getExpiration (docBackend (-1))) := by
  decide

theorem getExpiration_wraps :
    getExpiration (docBackend 9223372037) = 9223372037 * Second - 2 ^ 64 := by
  decide

theorem getExpiration_wraps_negative :
    getExpiration (docBackend (-9223372037)) = -9223372037 * Second + 2 ^ 64 ∧
    0 < getExpiration (docBackend (-9223372037)) := by
  decide

/-- C6, amended: `getExpiration` returns the default of 3600 s for the setting
0; a non-zero setting from -9223372036 to 9223372036, the range in which the
int64 product in nanoseconds does not wrap, is returned as that many seconds,
negative ones included; the result is strictly positive for a setting from 0
to 9223372036 and strictly negative for a setting from -9223372036 to -1. -/
theorem getExpiration_zero_default {β : Type} (b : Backend β) :
    (b.cnf.ResultsExpireIn = 0 → getExpiration b = 3600 * Second) ∧
    (b.cnf.ResultsExpireIn ≠ 0 → -9223372036 ≤ b.cnf.ResultsExpireIn →
      b.cnf.ResultsExpireIn ≤ 9223372036 →
      getExpiration b = b.cnf.ResultsExpireIn * Second) ∧
    (0 ≤ b.cnf.ResultsExpireIn → b.cnf.ResultsExpireIn ≤ 9223372036 →
      0 < getExpiration b) ∧
    (-9223372036 ≤ b.cnf.ResultsExpireIn → b.cnf.ResultsExpireIn < 0 →
      getExpiration b < 0) := by
  refine ⟨?_, ?_, ?_, ?_⟩
  · intro h0
    simp only [getExpiration, h0, if_true, DefaultResultsExpireIn]
    exact wrapInt64_of_fits _ (by unfold Second; norm_num) (by unfold Second; norm_num)
  · intro hne hlo hhi
    simp only [getExpiration, hne, if_false]
    exact wrapInt64_of_fits _ (by unfold Second; omega) (by unfold Second; omega)
  · intro hlo hhi
    by_cases h0 : b.cnf.ResultsExpireIn = 0
    · simp only [getExpiration, h0, if_true, DefaultResultsExpireIn]
      rw [wrapInt64_of_fits _ (by unfold Second; norm_num) (by unfold Second; norm_num)]
      unfold Second; norm_num
    · simp only [getExpiration, h0, if_false]
      rw [wrapInt64_of_fits _ (by unfold Second; omega) (by unfold Second; omega)]
      unfold Second; omega
  · intro hlo hneg
    have h0 : ¬ b.cnf.ResultsExpireIn = 0 := by omega
    simp only [getExpiration, h0, if_false]
    rw [wrapInt64_of_fits _ (by unfold Second; omega) (by unfold Second; omega)]
    unfold Second; omega

theorem getExpiration_zero_default_witness :
    getExpiration (docBackend 0) = 3600 * Second ∧
    getExpiration (docBackend 60) = 60 * Second ∧
    0 < getExpiration (docBackend 60) ∧
    getExpiration (docBackend (-60)) < 0 :=
  ⟨(getExpiration_zero_default (docBackend 0)).1 (by decide),
   (getExpiration_zero_default (docBackend 60)).2.1 (by decide) (by decide) (by decide),
   (getExpiration_zero_default (docBackend 60)).2.2.1 (by decide) (by decide),
   (getExpiration_zero_default (docBackend (-60))).2.2.2 (by decide) (by decide)⟩

/-! ## Purge -/

/-- C10: `PurgeState` returns no error whether or not a record is stored, a
`GetState` right after it returns no state and `redis.Nil`; so does `GetState`
after `SetStatePending` and `PurgeState`. -/
theorem PurgeState_then_GetState_not_found {β : Type} (b : Backend β) (rdb : Store β)
    (u : String) :
    (PurgeState b rdb u).1 = none ∧
    GetState b (PurgeState b rdb u).2 u = .error .redisNil ∧
    (∀ (signature : Signature) (now : Nat), signature.UUID = u →
      (PurgeState b (SetStatePending b rdb signature now).2 u).1 = none ∧
      GetState b (PurgeState b (SetStatePending b rdb signature now).2 u).2 u
        = .error .redisNil) := by
  have key : ∀ r : Store β, GetState b (PurgeState b r u).2 u = .error .redisNil := by
    intro r
    simp [GetState, PurgeState, Get_Del_same]
  exact ⟨rfl, key rdb, fun signature now _ => ⟨rfl, key _⟩⟩

theorem PurgeState_then_GetState_not_found_witness :
    (PurgeState (docBackend 0)
        (SetStatePending (docBackend 0) Store.empty ⟨"testTaskUUID", "", "testGroupUUID"⟩ 1).2
        "testTaskUUID").1 = none ∧
    GetState (docBackend 0)
      (PurgeState (docBackend 0)
        (SetStatePending (docBackend 0) Store.empty ⟨"testTaskUUID", "", "testGroupUUID"⟩ 1).2
        "testTaskUUID").2 "testTaskUUID" = .error .redisNil :=
  (PurgeState_then_GetState_not_found (docBackend 0) Store.empty "testTaskUUID").2.2
    ⟨"testTaskUUID", "", "testGroupUUID"⟩ 1 rfl

/-! ## Chord trigger, one caller at a time -/

theorem getGroupMeta_Set {β : Type} (b : Backend β) (rdb : Store β) (groupUUID : String)
    (bytes : β) (expiration : Int) (g : GroupMeta)
    (hdec : b.json.decodeGroupMeta bytes = .ok g) :
    getGroupMeta b (Set rdb groupUUID bytes expiration) groupUUID = .ok g := by
  simp [getGroupMeta, Get_Set_same, hdec]

theorem TriggerChord_of_meta {β : Type} (b : Backend β) (rdb : Store β) (groupUUID : String)
    (hc : b.json.Lawful) (gm : GroupMeta) (hgm : getGroupMeta b rdb groupUUID = .ok gm) :
    (TriggerChord b rdb groupUUID).1 = (!gm.ChordTriggered, none) ∧
    (gm.ChordTriggered = false →
      getGroupMeta b (TriggerChord b rdb groupUUID).2 groupUUID
        = .ok { gm with ChordTriggered := true }) ∧
    (gm.ChordTriggered = true → (TriggerChord b rdb groupUUID).2 = rdb) := by
  obtain ⟨bytes, hm, hd⟩ := hc.2 { gm with ChordTriggered := true }
  cases hflag : gm.ChordTriggered with
  | true => simp [TriggerChord, hgm, hflag]
  | false =>
    simp only [TriggerChord, hgm, hflag, hm]
    refine ⟨by simp, fun _ => ?_, fun h => by simp at h⟩
    exact getGroupMeta_Set b rdb groupUUID bytes _ _ hd

/-- C2: with the group metadata decodable and writes succeeding (a lawful
codec), `TriggerChord` returns true exactly when the stored `ChordTriggered`
was false, the metadata stored after a true answer has the flag set, an
already set flag leaves the store untouched; on a group just written by
`InitGroup` two calls in a row answer true, then false. -/
theorem TriggerChord_true_iff_not_triggered {β : Type} (b : Backend β) (rdb : Store β)
    (groupUUID : String) (hc : b.json.Lawful) :
    (∀ gm : GroupMeta, getGroupMeta b rdb groupUUID = .ok gm →
      (TriggerChord b rdb groupUUID).1 = (!gm.ChordTriggered, none) ∧
      (gm.ChordTriggered = false →
        getGroupMeta b (TriggerChord b rdb groupUUID).2 groupUUID
          = .ok { gm with ChordTriggered := true }) ∧
      (gm.ChordTriggered = true → (TriggerChord b rdb groupUUID).2 = rdb)) ∧
    (∀ (taskUUIDs : List String) (now : Nat),
      (InitGroup b rdb groupUUID taskUUIDs now).1 = none ∧
      (TriggerChord b (InitGroup b rdb groupUUID taskUUIDs now).2 groupUUID).1
        = (true, none) ∧
      (TriggerChord b
        (TriggerChord b (InitGroup b rdb groupUUID taskUUIDs now).2 groupUUID).2
        groupUUID).1 = (false, none)) := by
  refine ⟨fun gm hgm => TriggerChord_of_meta b rdb groupUUID hc gm hgm, ?_⟩
  intro taskUUIDs now
  obtain ⟨bytes, hm, hd⟩ := hc.2
    { GroupUUID := groupUUID, TaskUUIDs := taskUUIDs, ChordTriggered := false,
      CreatedAt := now }
  have hinit : InitGroup b rdb groupUUID taskUUIDs now
      = (none, Set rdb groupUUID bytes (getExpiration b)) := by
    simp [InitGroup, hm]
  rw [hinit]
  have h1 := TriggerChord_of_meta b (Set rdb groupUUID bytes (getExpiration b)) groupUUID hc _
    (getGroupMeta_Set b rdb groupUUID bytes _ _ hd)
  have h2 := TriggerChord_of_meta b
    (TriggerChord b (Set rdb groupUUID bytes (getExpiration b)) groupUUID).2 groupUUID hc _
    (h1.2.1 rfl)
  exact ⟨rfl, h1.1, h2.1⟩

theorem TriggerChord_true_iff_not_triggered_witness :
    ((TriggerChord (docBackend 0) freshGroupStore "testGroupUUID").1
        = (!freshGroupMeta.ChordTriggered, none) ∧
      getGroupMeta (docBackend 0)
        (TriggerChord (docBackend 0) freshGroupStore "testGroupUUID").2 "testGroupUUID"
        = .ok { freshGroupMeta with ChordTriggered := true }) ∧
    (TriggerChord (docBackend 0) freshGroupStore "testGroupUUID").1 = (true, none) ∧
    (TriggerChord (docBackend 0)
      (TriggerChord (docBackend 0) freshGroupStore "testGroupUUID").2
      "testGroupUUID").1 = (false, none) :=
  ⟨⟨((TriggerChord_true_iff_not_triggered (docBackend 0) freshGroupStore "testGroupUUID"
        docCodec_lawful).1 freshGroupMeta rfl).1,
    ((TriggerChord_true_iff_not_triggered (docBackend 0) freshGroupStore "testGroupUUID"
        docCodec_lawful).1 freshGroupMeta rfl).2.1 rfl⟩,
   ((TriggerChord_true_iff_not_triggered (docBackend 0) Store.empty "testGroupUUID"
      docCodec_lawful).2 ["testTaskUUID1", "testTaskUUID2"] 1).2⟩

/-! ## Carrying `CreatedAt` and `TaskName` forward -/

theorem mergeNewTaskState_of_prior {β : Type} (b : Backend β) (rdb : Store β)
    (newState prior : TaskState) (hprior : GetState b rdb newState.TaskUUID = .ok prior) :
    mergeNewTaskState b rdb newState
      = { newState with CreatedAt := prior.CreatedAt, TaskName := prior.TaskName } := by
  simp [mergeNewTaskState, hprior]

theorem GetState_updateState {β : Type} (b : Backend β) (rdb : Store β) (hc : b.json.Lawful)
    (taskState : TaskState) :
    (updateState b rdb taskState).1 = none ∧
    GetState b (updateState b rdb taskState).2 taskState.TaskUUID = .ok taskState := by
  obtain ⟨bytes, hm, hd⟩ := hc.1 taskState
  simp [updateState, hm, GetState, Get_Set_same, hd]

theorem updateState_merge_carries {β : Type} (b : Backend β) (rdb : Store β)
    (hc : b.json.Lawful) (newState prior : TaskState)
    (hprior : GetState b rdb newState.TaskUUID = .ok prior) :
    (updateState b rdb (mergeNewTaskState b rdb newState)).1 = none ∧
    ∃ s, GetState b (updateState b rdb (mergeNewTaskState b rdb newState)).2 newState.TaskUUID
        = .ok s ∧ s.CreatedAt = prior.CreatedAt ∧ s.TaskName = prior.TaskName := by
  rw [mergeNewTaskState_of_prior b rdb newState prior hprior]
  have h := GetState_updateState b rdb hc
    { newState with CreatedAt := prior.CreatedAt, TaskName := prior.TaskName }
  exact ⟨h.1, _, h.2, rfl, rfl⟩

theorem SetStatePending_ignores_prior {β : Type} (b : Backend β) (rdb₁ rdb₂ : Store β)
    (signature : Signature) (now : Nat) :
    (SetStatePending b rdb₁ signature now).1 = (SetStatePending b rdb₂ signature now).1 ∧
    ((SetStatePending b rdb₁ signature now).1 = none →
      Get (SetStatePending b rdb₁ signature now).2 signature.UUID
        = Get (SetStatePending b rdb₂ signature now).2 signature.UUID) := by
  cases hm : b.json.marshalTaskState (NewPendingTaskState signature now) with
  | error e => simp [SetStatePending, updateState, hm]
  | ok bytes =>
    have hu : (NewPendingTaskState signature now).TaskUUID = signature.UUID := rfl
    simp [SetStatePending, updateState, hm, hu, Get_Set_same]

/-- C4, as stated, fails for `SetStatePending`: on a store whose record was
created at time 1, `SetStatePending` of the same signature at time 2 stores a
record created at time 2. -/
theorem SetStatePending_regenerates_CreatedAt :
    (GetState (docBackend 0) pendingStore "testTaskUUID").map (fun s => s.CreatedAt)
      = .ok 1 ∧
    (SetStatePending (docBackend 0) pendingStore
      ⟨"testTaskUUID", "add", "testGroupUUID"⟩ 2).1 = none ∧
    (GetState (docBackend 0)
      (SetStatePending (docBackend 0) pendingStore
        ⟨"testTaskUUID", "add", "testGroupUUID"⟩ 2).2
      "testTaskUUID").map (fun s => s.CreatedAt) = .ok 2 :=
  ⟨rfl, rfl, rfl⟩

/-- C4, amended: with the prior record of the UUID readable and writes
succeeding (a lawful codec), every state transition other than
`SetStatePending` stores a record carrying the `CreatedAt` and `TaskName` of
the prior record; `SetStatePending` does not read the prior record and stores
the Pending record built from the signature. -/
theorem SetState_carries_CreatedAt_and_TaskName {β : Type} (b : Backend β) (rdb : Store β)
    (signature : Signature) (now : Nat) (t : Transition) (prior : TaskState)
    (hc : b.json.Lawful) (hprior : GetState b rdb signature.UUID = .ok prior) :
    (t ≠ Transition.pending →
      (t.apply b rdb signature now).1 = none ∧
      ∃ s, GetState b (t.apply b rdb signature now).2 signature.UUID = .ok s ∧
        s.CreatedAt = prior.CreatedAt ∧ s.TaskName = prior.TaskName) ∧
    (t = Transition.pending →
      (t.apply b rdb signature now).1 = none ∧
      GetState b (t.apply b rdb signature now).2 signature.UUID
        = .ok (NewPendingTaskState signature now)) := by
  constructor
  · intro ht
    cases t with
    | pending => exact absurd rfl ht
    | received =>
      exact updateState_merge_carries b rdb hc (NewReceivedTaskState signature now) prior hprior
    | started =>
      exact updateState_merge_carries b rdb hc (NewStartedTaskState signature now) prior hprior
    | retry =>
      exact updateState_merge_carries b rdb hc (NewRetryTaskState signature now) prior hprior
    | success results =>
      exact updateState_merge_carries b rdb hc (NewSuccessTaskState signature results now)
        prior hprior
    | failure err =>
      exact updateState_merge_carries b rdb hc (NewFailureTaskState signature err now)
        prior hprior
  · intro ht
    subst ht
    exact GetState_updateState b rdb hc (NewPendingTaskState signature now)

theorem SetState_carries_CreatedAt_and_TaskName_witness :
    (SetStateSuccess (docBackend 0) pendingStore ⟨"testTaskUUID", "mul", ""⟩ [⟨"float64", "2"⟩]
      9).1 = none ∧
    ∃ s, GetState (docBackend 0)
        (SetStateSuccess (docBackend 0) pendingStore ⟨"testTaskUUID", "mul", ""⟩
          [⟨"float64", "2"⟩] 9).2 "testTaskUUID" = .ok s ∧
      s.CreatedAt = 1 ∧ s.TaskName = "add" :=
  (SetState_carries_CreatedAt_and_TaskName (docBackend 0) pendingStore
    ⟨"testTaskUUID", "mul", ""⟩ 9 (.success [⟨"float64", "2"⟩])
    (NewPendingTaskState ⟨"testTaskUUID", "add", "testGroupUUID"⟩ 1)
    docCodec_lawful rfl).1 (by decide)

/-! ## Batched read -/

theorem GetState_ok_iff {β : Type} (b : Backend β) (rdb : Store β) (u : String)
    (s : TaskState) :
    GetState b rdb u = .ok s ↔
      ∃ bytes, Get rdb u = .ok bytes ∧ b.json.decodeTaskState bytes = .ok s := by
  unfold GetState
  cases hg : Get rdb u with
  | error e => simp
  | ok bytes =>
    cases hd : b.json.decodeTaskState bytes with
    | error e => simp [hd]
    | ok s1 => simp [hd]

theorem Get_error_iff {β : Type} (rdb : Store β) (u : String) (e : Err) :
    Get rdb u = .error e ↔ rdb u = none ∧ e = .redisNil := by
  unfold Get
  cases h : rdb u with
  | none => simp [eq_comm]
  | some entry => simp

theorem set_at_length {α : Type} (pre : List α) (y x : α) (rest : List α) :
    (pre ++ y :: rest).set pre.length x = pre ++ x :: rest := by
  induction pre with
  | nil => rfl
  | cons a pre ih => simp [ih]

theorem cmdsFirstErr_all_ok {β : Type} (b : Backend β) (rdb : Store β)
    (f : String → TaskState) (us : List String)
    (hf : ∀ u ∈ us, GetState b rdb u = .ok (f u)) :
    cmdsFirstErr (us.map (Get rdb)) = none := by
  induction us with
  | nil => rfl
  | cons u us ih =>
    obtain ⟨bytes, hg, -⟩ := (GetState_ok_iff b rdb u (f u)).1 (hf u (by simp))
    simp only [List.map_cons, hg, cmdsFirstErr]
    exact ih (fun v hv => hf v (by simp [hv]))

theorem getStatesLoop_all_ok {β : Type} (b : Backend β) (rdb : Store β)
    (f : String → TaskState) (us : List String) :
    ∀ pre : List (Option TaskState), (∀ u ∈ us, GetState b rdb u = .ok (f u)) →
      getStatesLoop b pre.length (us.map (Get rdb)) (pre ++ List.replicate us.length none)
        = (pre ++ us.map (fun u => some (f u)), none) := by
  induction us with
  | nil => intro pre _; simp [getStatesLoop]
  | cons u us ih =>
    intro pre hf
    obtain ⟨bytes, hg, hd⟩ := (GetState_ok_iff b rdb u (f u)).1 (hf u (by simp))
    have hrec := ih (pre ++ [some (f u)]) (fun v hv => hf v (by simp [hv]))
    simp only [List.length_append, List.length_singleton, List.append_assoc,
      List.singleton_append] at hrec
    simp only [List.map_cons, List.length_cons, List.replicate_succ, getStatesLoop, hg, hd,
      set_at_length]
    exact hrec

theorem getStates_all_ok {β : Type} (b : Backend β) (rdb : Store β) (f : String → TaskState)
    (us : List String) (hf : ∀ u ∈ us, GetState b rdb u = .ok (f u)) :
    getStates b rdb us = (us.map (fun u => some (f u)), none) := by
  have h := getStatesLoop_all_ok b rdb f us [] hf
  simp only [List.length_nil, List.nil_append] at h
  simp only [getStates, Pipelined, cmdsFirstErr_all_ok b rdb f us hf]
  exact h

/-- C7: when every UUID of the list holds a decodable record, `getStates`
returns no error and, position by position, the record decoded from the key at
that position (so the result has the length and the order of the input, repeated
UUIDs included); `GroupTaskStates` returns the same over the `TaskUUIDs` of the
group. -/
theorem getStates_aligned {β : Type} (b : Backend β) (rdb : Store β)
    (f : String → TaskState) (taskUUIDs : List String)
    (hf : ∀ u ∈ taskUUIDs, GetState b rdb u = .ok (f u)) :
    getStates b rdb taskUUIDs = (taskUUIDs.map (fun u => some (f u)), none) ∧
    (getStates b rdb taskUUIDs).1.length = taskUUIDs.length ∧
    (∀ (groupUUID : String) (gm : GroupMeta) (groupTaskCount : Int),
      getGroupMeta b rdb groupUUID = .ok gm → gm.TaskUUIDs = taskUUIDs →
      GroupTaskStates b rdb groupUUID groupTaskCount
        = (taskUUIDs.map (fun u => some (f u)), none)) := by
  have h := getStates_all_ok b rdb f taskUUIDs hf
  refine ⟨h, by simp [h], ?_⟩
  intro groupUUID gm groupTaskCount hgm hmem
  simp [GroupTaskStates, hgm, hmem, h]

theorem failedMemberState_stored :
    ∀ u ∈ ["testTaskUUID1", "testTaskUUID2", "testTaskUUID1"],
      GetState (docBackend 0) failedMemberStore u = .ok (failedMemberState u) := by
  intro u hu
  simp only [List.mem_cons, List.mem_singleton, List.not_mem_nil, or_false] at hu
  rcases hu with h | h | h <;> subst h <;> rfl

theorem getStates_aligned_witness :
    getStates (docBackend 0) failedMemberStore
        ["testTaskUUID1", "testTaskUUID2", "testTaskUUID1"]
      = ([some (failedMemberState "testTaskUUID1"), some (failedMemberState "testTaskUUID2"),
          some (failedMemberState "testTaskUUID1")], none) ∧
    GroupTaskStates (docBackend 0) failedMemberStore "testGroupUUID" 2
      = ([some (failedMemberState "testTaskUUID1"), some (failedMemberState "testTaskUUID2")],
          none) :=
  ⟨(getStates_aligned (docBackend 0) failedMemberStore failedMemberState
      ["testTaskUUID1", "testTaskUUID2", "testTaskUUID1"] failedMemberState_stored).1,
   (getStates_aligned (docBackend 0) failedMemberStore failedMemberState
      ["testTaskUUID1", "testTaskUUID2"]
      (fun u hu => failedMemberState_stored u (by
        simp only [List.mem_cons, List.mem_singleton, List.not_mem_nil, or_false] at hu
        rcases hu with h | h <;> subst h <;> simp))).2.2
      "testGroupUUID" freshGroupMeta 2 rfl rfl⟩

/-! ## Group completion -/

theorem IsCompleted_iff (s : TaskState) :
    s.IsCompleted = true ↔ s.State = Status.Success := by
  simp [TaskState.IsCompleted]

theorem countSuccessTasks_map_some (l : List TaskState) :
    countSuccessTasks (l.map some) = l.countP (fun s => s.IsCompleted) := by
  induction l with
  | nil => rfl
  | cons s l ih =>
    by_cases h : s.IsCompleted = true
    · simp [countSuccessTasks, h, ih]
    · simp [countSuccessTasks, h, ih]

theorem GroupCompleted_of_states {β : Type} (b : Backend β) (rdb : Store β)
    (groupUUID : String) (groupTaskCount : Int) (gm : GroupMeta) (f : String → TaskState)
    (hgm : getGroupMeta b rdb groupUUID = .ok gm)
    (hf : ∀ u ∈ gm.TaskUUIDs, GetState b rdb u = .ok (f u)) :
    GroupCompleted b rdb groupUUID groupTaskCount
      = (decide ((((gm.TaskUUIDs.map f).countP (fun s => s.IsCompleted) : Nat) : Int)
          = groupTaskCount), none) := by
  have h := getStates_all_ok b rdb f gm.TaskUUIDs hf
  have hmap : gm.TaskUUIDs.map (fun u => some (f u)) = (gm.TaskUUIDs.map f).map some := by
    simp
  simp only [GroupCompleted, hgm, h, hmap, countSuccessTasks_map_some]

/-- C1: with the group metadata and every member state decodable,
`GroupCompleted` returns no error, and true if and only if the number of member
states whose status is Success equals the expected count; a member in state
Failure does not count toward completion: with such a member in the group, the
call expecting as many completions as the group has members returns false. -/
theorem GroupCompleted_iff_success_count {β : Type} (b : Backend β) (rdb : Store β)
    (groupUUID : String) (expectedCount : Int) (gm : GroupMeta) (f : String → TaskState)
    (hgm : getGroupMeta b rdb groupUUID = .ok gm)
    (hf : ∀ u ∈ gm.TaskUUIDs, GetState b rdb u = .ok (f u)) :
    (GroupCompleted b rdb groupUUID expectedCount).2 = none ∧
    ((GroupCompleted b rdb groupUUID expectedCount).1 = true ↔
      (((gm.TaskUUIDs.map f).countP (fun s => decide (s.State = Status.Success)) : Nat) : Int)
        = expectedCount) ∧
    ((∃ u ∈ gm.TaskUUIDs, (f u).State = Status.Failure) →
      GroupCompleted b rdb groupUUID gm.TaskUUIDs.length = (false, none)) := by
  have hpred : (fun s : TaskState => s.IsCompleted)
      = (fun s => decide (s.State = Status.Success)) := by
    funext s
    rw [Bool.eq_iff_iff, IsCompleted_iff]
    simp
  refine ⟨?_, ?_, ?_⟩
  · rw [GroupCompleted_of_states b rdb groupUUID expectedCount gm f hgm hf]
  · rw [GroupCompleted_of_states b rdb groupUUID expectedCount gm f hgm hf, hpred]
    simp
  · rintro ⟨u, hu, hstate⟩
    rw [GroupCompleted_of_states b rdb groupUUID _ gm f hgm hf]
    have hlt : (gm.TaskUUIDs.map f).countP (fun s => s.IsCompleted)
        < (gm.TaskUUIDs.map f).length := by
      apply lt_of_le_of_ne (List.countP_le_length _)
      intro heq
      have hall := List.countP_eq_length.1 heq (f u) (List.mem_map.2 ⟨u, hu, rfl⟩)
      have hsucc := (IsCompleted_iff (f u)).1 hall
      rw [hstate] at hsucc
      cases hsucc
    have hlen : (gm.TaskUUIDs.map f).length = gm.TaskUUIDs.length := by simp
    have hne : (((gm.TaskUUIDs.map f).countP (fun s => s.IsCompleted) : Nat) : Int)
        ≠ (gm.TaskUUIDs.length : Int) := by
      omega
    rw [decide_eq_false hne]

theorem GroupCompleted_iff_success_count_witness :
    ((GroupCompleted (docBackend 0) failedMemberStore "testGroupUUID" 1).2 = none ∧
      ((GroupCompleted (docBackend 0) failedMemberStore "testGroupUUID" 1).1 = true ↔
        (((freshGroupMeta.TaskUUIDs.map failedMemberState).countP
          (fun s => decide (s.State = Status.Success)) : Nat) : Int) = 1)) ∧
    GroupCompleted (docBackend 0) failedMemberStore "testGroupUUID"
      freshGroupMeta.TaskUUIDs.length = (false, none) :=
  ⟨⟨(GroupCompleted_iff_success_count (docBackend 0) failedMemberStore "testGroupUUID" 1
        freshGroupMeta failedMemberState rfl
        (fun u hu => failedMemberState_stored u (by
          simp only [freshGroupMeta, List.mem_cons, List.mem_singleton, List.not_mem_nil,
            or_false] at hu
          rcases hu with h | h <;> subst h <;> simp))).1,
     (GroupCompleted_iff_success_count (docBackend 0) failedMemberStore "testGroupUUID" 1
        freshGroupMeta failedMemberState rfl
        (fun u hu => failedMemberState_stored u (by
          simp only [freshGroupMeta, List.mem_cons, List.mem_singleton, List.not_mem_nil,
            or_false] at hu
          rcases hu with h | h <;> subst h <;> simp))).2.1⟩,
   (GroupCompleted_iff_success_count (docBackend 0) failedMemberStore "testGroupUUID" 1
      freshGroupMeta failedMemberState rfl
      (fun u hu => failedMemberState_stored u (by
        simp only [freshGroupMeta, List.mem_cons, List.mem_singleton, List.not_mem_nil,
          or_false] at hu
        rcases hu with h | h <;> subst h <;> simp))).2.2
      ⟨"testTaskUUID1", by decide, rfl⟩⟩

/-! ## Group completion on error -/

theorem cmdsFirstErr_absent {β : Type} (rdb : Store β) (us : List String)
    (h : ∃ u ∈ us, rdb u = none) :
    cmdsFirstErr (us.map (Get rdb)) = some Err.redisNil := by
  induction us with
  | nil => simp at h
  | cons u us ih =>
    cases hu : rdb u with
    | none => simp [Get, hu, cmdsFirstErr]
    | some entry =>
      have htail : ∃ v ∈ us, rdb v = none := by
        obtain ⟨v, hv, hnone⟩ := h
        rcases List.mem_cons.1 hv with rfl | hv
        · rw [hu] at hnone; cases hnone
        · exact ⟨v, hv, hnone⟩
      simp only [List.map_cons, Get, hu, cmdsFirstErr]
      exact ih htail

theorem getStatesLoop_error {β : Type} (b : Backend β) (rdb : Store β) (us : List String) :
    ∀ (i : Nat) (acc : List (Option TaskState)),
      (∃ u ∈ us, ∃ err, GetState b rdb u = .error err) →
      ∃ err, (getStatesLoop b i (us.map (Get rdb)) acc).2 = some err := by
  induction us with
  | nil => intro i acc h; simp at h
  | cons u us ih =>
    intro i acc h
    cases hg : Get rdb u with
    | error e => exact ⟨e, by simp [getStatesLoop, hg]⟩
    | ok bytes =>
      cases hd : b.json.decodeTaskState bytes with
      | error e => exact ⟨e, by simp [getStatesLoop, hg, hd]⟩
      | ok s =>
        have hok : GetState b rdb u = .ok s := (GetState_ok_iff b rdb u s).2 ⟨bytes, hg, hd⟩
        have htail : ∃ v ∈ us, ∃ err, GetState b rdb v = .error err := by
          obtain ⟨v, hv, err, herr⟩ := h
          rcases List.mem_cons.1 hv with rfl | hv
          · rw [hok] at herr; cases herr
          · exact ⟨v, hv, err, herr⟩
        simp only [List.map_cons, getStatesLoop, hg, hd]
        exact ih (i + 1) _ htail

theorem getStates_error {β : Type} (b : Backend β) (rdb : Store β) (us : List String)
    (h : ∃ u ∈ us, ∃ err, GetState b rdb u = .error err) :
    ∃ err, (getStates b rdb us).2 = some err := by
  cases hfirst : cmdsFirstErr (us.map (Get rdb)) with
  | some e => exact ⟨e, by simp [getStates, Pipelined, hfirst]⟩
  | none =>
    obtain ⟨err, herr⟩ := getStatesLoop_error b rdb us 0 (List.replicate us.length none) h
    exact ⟨err, by simp [getStates, Pipelined, hfirst, herr]⟩

theorem getStates_ok_all_some {β : Type} (b : Backend β) (rdb : Store β) (us : List String)
    (hnone : (getStates b rdb us).2 = none) :
    ∀ o ∈ (getStates b rdb us).1, o ≠ none := by
  by_cases h : ∃ u ∈ us, ∃ err, GetState b rdb u = .error err
  · obtain ⟨err, herr⟩ := getStates_error b rdb us h
    rw [herr] at hnone
    cases hnone
  · have hf : ∀ u ∈ us, GetState b rdb u
        = .ok (match GetState b rdb u with
          | .ok s => s
          | .error _ => ⟨"", "", .Pending, [], "", 0⟩) := by
      intro u hu
      cases hG : GetState b rdb u with
      | error e => exact absurd ⟨u, hu, e, hG⟩ h
      | ok st => rfl
    rw [getStates_all_ok b rdb _ us hf]
    intro o ho
    obtain ⟨u, -, rfl⟩ := List.mem_map.1 ho
    simp

theorem getStates_absent {β : Type} (b : Backend β) (rdb : Store β) (us : List String)
    (h : ∃ u ∈ us, rdb u = none) :
    (getStates b rdb us).2 = some Err.redisNil := by
  simp [getStates, Pipelined, cmdsFirstErr_absent rdb us h]

theorem GroupCompleted_of_getStates_error {β : Type} (b : Backend β) (rdb : Store β)
    (groupUUID : String) (groupTaskCount : Int) (gm : GroupMeta) (err : Err)
    (hgm : getGroupMeta b rdb groupUUID = .ok gm)
    (herr : (getStates b rdb gm.TaskUUIDs).2 = some err) :
    GroupCompleted b rdb groupUUID groupTaskCount = (false, some err) := by
  rcases hgs : getStates b rdb gm.TaskUUIDs with ⟨taskStates, e⟩
  rw [hgs] at herr
  simp only at herr
  subst herr
  simp [GroupCompleted, hgm, hgs]

/-- C8: `GroupCompleted` never returns true together with an error; when the
group key is absent it returns false and `redis.Nil`; when the metadata decodes
and some member key is absent it returns false and `redis.Nil`; when the
metadata decodes and some member state cannot be read (absent or not
decodable) it returns false and an error. -/
theorem GroupCompleted_false_on_error {β : Type} (b : Backend β) (rdb : Store β)
    (groupUUID : String) (expectedCount : Int) :
    ((GroupCompleted b rdb groupUUID expectedCount).2 ≠ none →
      (GroupCompleted b rdb groupUUID expectedCount).1 = false) ∧
    (rdb groupUUID = none →
      GroupCompleted b rdb groupUUID expectedCount = (false, some Err.redisNil)) ∧
    (∀ gm : GroupMeta, getGroupMeta b rdb groupUUID = .ok gm →
      ((∃ u ∈ gm.TaskUUIDs, rdb u = none) →
        GroupCompleted b rdb groupUUID expectedCount = (false, some Err.redisNil)) ∧
      ((∃ u ∈ gm.TaskUUIDs, ∃ err, GetState b rdb u = .error err) →
        ∃ err, GroupCompleted b rdb groupUUID expectedCount = (false, some err))) := by
  refine ⟨?_, ?_, ?_⟩
  · unfold GroupCompleted
    cases getGroupMeta b rdb groupUUID with
    | error e => simp
    | ok gm =>
      rcases hgs : getStates b rdb gm.TaskUUIDs with ⟨taskStates, _ | e⟩ <;> simp [hgs]
  · intro habs
    simp [GroupCompleted, getGroupMeta, Get, habs]
  · intro gm hgm
    constructor
    · intro habs
      exact GroupCompleted_of_getStates_error b rdb groupUUID expectedCount gm _ hgm
        (getStates_absent b rdb gm.TaskUUIDs habs)
    · intro hbad
      obtain ⟨err, herr⟩ := getStates_error b rdb gm.TaskUUIDs hbad
      exact ⟨err, GroupCompleted_of_getStates_error b rdb groupUUID expectedCount gm err hgm
        herr⟩

theorem GroupCompleted_false_on_error_witness :
    GroupCompleted (docBackend 0) Store.empty "testGroupUUID" 2 = (false, some Err.redisNil) ∧
    GroupCompleted (docBackend 0) freshGroupStore "testGroupUUID" 2
      = (false, some Err.redisNil) :=
  ⟨(GroupCompleted_false_on_error (docBackend 0) Store.empty "testGroupUUID" 2).2.1 rfl,
   ((GroupCompleted_false_on_error (docBackend 0) freshGroupStore "testGroupUUID" 2).2.2
      freshGroupMeta rfl).1 ⟨"testTaskUUID1", by decide, rfl⟩⟩

/-! ## Chord trigger under concurrent callers -/

theorem ChordCall_two_steps_eq_TriggerChord {β : Type} (b : Backend β) (rdb : Store β)
    (groupUUID : String) :
    ∃ shouldTrigger err,
      (ChordCall.step b groupUUID (ChordCall.step b groupUUID rdb .start).2
        (ChordCall.step b groupUUID rdb .start).1)
        = (.done shouldTrigger err, (TriggerChord b rdb groupUUID).2) ∧
      (TriggerChord b rdb groupUUID).1 = (shouldTrigger, err) := by
  unfold TriggerChord
  cases hgm : getGroupMeta b rdb groupUUID with
  | error e => exact ⟨false, some e, by simp [ChordCall.step, hgm], rfl⟩
  | ok gm =>
    cases hflag : gm.ChordTriggered with
    | true => exact ⟨false, none, by simp [ChordCall.step, hgm, hflag], by simp [hflag]⟩
    | false =>
      cases hm : b.json.marshalGroupMeta { gm with ChordTriggered := true } with
      | error e =>
        exact ⟨false, some e, by simp [ChordCall.step, hgm, hflag, hm], by simp [hflag, hm]⟩
      | ok bytes =>
        exact ⟨true, none, by simp [ChordCall.step, hgm, hflag, hm], by simp [hflag, hm]⟩

theorem get?_at_length {α : Type} (pre : List α) (y : α) (rest : List α) :
    (pre ++ y :: rest).get? pre.length = some y := by
  induction pre with
  | nil => rfl
  | cons a pre ih => simpa using ih

theorem runSchedule_append {β : Type} (b : Backend β) (groupUUID : String)
    (s₁ s₂ : List Nat) (st : List ChordCall × Store β) :
    runSchedule b groupUUID (s₁ ++ s₂) st
      = runSchedule b groupUUID s₂ (runSchedule b groupUUID s₁ st) := by
  induction s₁ generalizing st with
  | nil => rfl
  | cons i s₁ ih =>
    obtain ⟨callers, rdb⟩ := st
    simp only [List.cons_append, runSchedule]
    cases callers.get? i with
    | none => exact ih _
    | some c => exact ih _

theorem runSchedule_reads {β : Type} (b : Backend β) (groupUUID : String) (rdb : Store β)
    (gm : GroupMeta) (hgm : getGroupMeta b rdb groupUUID = .ok gm) :
    ∀ (n : Nat) (pre : List ChordCall),
      runSchedule b groupUUID (List.range' pre.length n)
          (pre ++ List.replicate n ChordCall.start, rdb)
        = (pre ++ List.replicate n (ChordCall.read gm), rdb) := by
  intro n
  induction n with
  | zero => intro pre; simp [runSchedule]
  | succ n ih =>
    intro pre
    have hrec := ih (pre ++ [ChordCall.read gm])
    simp only [List.length_append, List.length_singleton, List.append_assoc,
      List.singleton_append] at hrec
    simp only [List.range'_succ, List.replicate_succ, runSchedule, get?_at_length,
      ChordCall.step, hgm, set_at_length]
    exact hrec

theorem runSchedule_writes {β : Type} (b : Backend β) (groupUUID : String)
    (hc : b.json.Lawful) (gm : GroupMeta) (hflag : gm.ChordTriggered = false) :
    ∀ (n : Nat) (pre : List ChordCall) (rdb : Store β),
      (runSchedule b groupUUID (List.range' pre.length n)
          (pre ++ List.replicate n (ChordCall.read gm), rdb)).1
        = pre ++ List.replicate n (ChordCall.done true none) := by
  obtain ⟨bytes, hm, -⟩ := hc.2 { gm with ChordTriggered := true }
  intro n
  induction n with
  | zero => intro pre rdb; simp [runSchedule]
  | succ n ih =>
    intro pre rdb
    have hrec := ih (pre ++ [ChordCall.done true none])
      (Set rdb groupUUID bytes (getExpiration b))
    simp only [List.length_append, List.length_singleton, List.append_assoc,
      List.singleton_append] at hrec
    simp only [List.range'_succ, List.replicate_succ, runSchedule, get?_at_length,
      ChordCall.step, hflag, hm, set_at_length]
    exact hrec

theorem runSchedule_all_callers_true {β : Type} (b : Backend β) (groupUUID : String)
    (rdb : Store β) (hc : b.json.Lawful) (gm : GroupMeta)
    (hgm : getGroupMeta b rdb groupUUID = .ok gm) (hflag : gm.ChordTriggered = false)
    (C : Nat) :
    (runSchedule b groupUUID (List.range C ++ List.range C)
        (List.replicate C ChordCall.start, rdb)).1
      = List.replicate C (ChordCall.done true none) ∧
    triggeredCount (runSchedule b groupUUID (List.range C ++ List.range C)
        (List.replicate C ChordCall.start, rdb)).1 = C := by
  have h1 := runSchedule_reads b groupUUID rdb gm hgm C []
  have h2 := runSchedule_writes b groupUUID hc gm hflag C [] rdb
  simp only [List.length_nil, List.nil_append] at h1 h2
  have hrun : (runSchedule b groupUUID (List.range C ++ List.range C)
      (List.replicate C ChordCall.start, rdb)).1
      = List.replicate C (ChordCall.done true none) := by
    rw [runSchedule_append, List.range_eq_range', h1, h2]
  refine ⟨hrun, ?_⟩
  rw [hrun]
  simp [triggeredCount, List.countP_replicate]

theorem runSchedule_one_after_the_other :
    (runSchedule (docBackend 0) "testGroupUUID" [0, 0, 1, 1]
      ([ChordCall.start, ChordCall.start], freshGroupStore)).1
      = [ChordCall.done true none, ChordCall.done false none] := by
  decide

/-- C3 fails on the code: two callers of `TriggerChord` on a freshly
initialised group, both reading the metadata before either writes it back,
both receive true. -/
theorem TriggerChord_two_callers_both_true :
    (runSchedule (docBackend 0) "testGroupUUID" [0, 1, 0, 1]
      ([ChordCall.start, ChordCall.start], freshGroupStore)).1
      = [ChordCall.done true none, ChordCall.done true none] ∧
    triggeredCount (runSchedule (docBackend 0) "testGroupUUID" [0, 1, 0, 1]
      ([ChordCall.start, ChordCall.start], freshGroupStore)).1 = 2 := by
  decide

/-! ## Password and address of the first endpoint -/

theorem splitChars_ne_nil (sep : Char) (cs : List Char) : splitChars sep cs ≠ [] := by
  cases cs with
  | nil => simp [splitChars]
  | cons c cs =>
    unfold splitChars
    split
    · simp
    · split <;> simp

theorem joinChars_cons_ne_nil (sep p : List Char) (ps : List (List Char)) (h : ps ≠ []) :
    joinChars sep (p :: ps) = p ++ sep ++ joinChars sep ps := by
  cases ps with
  | nil => exact absurd rfl h
  | cons q qs => rfl

theorem joinChars_splitChars (sep : Char) (cs : List Char) :
    joinChars [sep] (splitChars sep cs) = cs := by
  induction cs with
  | nil => rfl
  | cons c cs ih =>
    unfold splitChars
    by_cases hc : c = sep
    · rw [if_pos hc, joinChars_cons_ne_nil _ _ _ (splitChars_ne_nil sep cs), ih, hc]
      rfl
    · rw [if_neg hc]
      cases hs : splitChars sep cs with
      | nil => exact absurd hs (splitChars_ne_nil sep cs)
      | cons p ps =>
        rw [hs] at ih
        cases ps with
        | nil =>
          simp only [joinChars] at ih ⊢
          rw [ih]
        | cons q qs =>
          simp only [joinChars] at ih ⊢
          rw [← ih]
          simp

theorem splitChars_no_sep (sep : Char) (cs : List Char) :
    ∀ p ∈ splitChars sep cs, sep ∉ p := by
  induction cs with
  | nil => intro p hp; simp [splitChars] at hp; simp [hp]
  | cons c cs ih =>
    intro p hp
    unfold splitChars at hp
    by_cases hc : c = sep
    · rw [if_pos hc] at hp
      rcases List.mem_cons.1 hp with rfl | hp
      · simp
      · exact ih p hp
    · rw [if_neg hc] at hp
      cases hs : splitChars sep cs with
      | nil => exact absurd hs (splitChars_ne_nil sep cs)
      | cons q qs =>
        rw [hs] at hp ih
        rcases List.mem_cons.1 hp with rfl | hp
        · intro hmem
          rcases List.mem_cons.1 hmem with h | h
          · exact hc h.symm
          · exact ih q (by simp) h
        · exact ih p (by simp [hp])

theorem splitChars_of_not_mem (sep : Char) (cs : List Char) (h : sep ∉ cs) :
    splitChars sep cs = [cs] := by
  induction cs with
  | nil => rfl
  | cons c cs ih =>
    have hc : ¬ c = sep := fun e => h (by simp [e])
    have htail : sep ∉ cs := fun e => h (by simp [e])
    unfold splitChars
    rw [if_neg hc, ih htail]

theorem splitChars_length_of_mem (sep : Char) (cs : List Char) (h : sep ∈ cs) :
    2 ≤ (splitChars sep cs).length := by
  induction cs with
  | nil => simp at h
  | cons c cs ih =>
    unfold splitChars
    by_cases hc : c = sep
    · rw [if_pos hc]
      have := List.length_pos.2 (splitChars_ne_nil sep cs)
      simp only [List.length_cons]
      omega
    · rw [if_neg hc]
      have htail : sep ∈ cs := by
        rcases List.mem_cons.1 h with e | e
        · exact absurd e.symm hc
        · exact e
      have := ih htail
      cases hs : splitChars sep cs with
      | nil => exact absurd hs (splitChars_ne_nil sep cs)
      | cons q qs =>
        rw [hs] at this
        simpa using this

theorem joinChars_dropLast_getLast (sep : List Char) (ps : List (List Char))
    (h : 2 ≤ ps.length) :
    joinChars sep ps.dropLast ++ sep ++ ps.getLastD [] = joinChars sep ps := by
  induction ps with
  | nil => simp at h
  | cons p ps ih =>
    cases ps with
    | nil => simp at h
    | cons q qs =>
      cases qs with
      | nil => simp [joinChars, List.dropLast]
      | cons r rs =>
        have hrec := ih (by simp)
        have hd : (p :: q :: r :: rs).dropLast = p :: (q :: r :: rs).dropLast := rfl
        have hne : (q :: r :: rs).dropLast ≠ [] := by simp [List.dropLast]
        have hl : (p :: q :: r :: rs).getLastD [] = (q :: r :: rs).getLastD [] := by
          simp [List.getLastD]
        rw [hd, joinChars_cons_ne_nil _ _ _ hne, hl]
        have hj : joinChars sep (p :: q :: r :: rs) = p ++ sep ++ joinChars sep (q :: r :: rs) :=
          rfl
        rw [hj, ← hrec]
        simp [List.append_assoc]

theorem getLastD_mem {α : Type} (l : List α) (d : α) (h : l ≠ []) : l.getLastD d ∈ l := by
  cases l with
  | nil => exact absurd rfl h
  | cons a l =>
    rw [List.getLastD_cons]
    induction l generalizing a with
    | nil => simp
    | cons x l ih =>
      rw [List.getLastD_cons]
      exact List.mem_cons_of_mem _ (ih x (by simp))

theorem getLastD_map_mk (ps : List (List Char)) (h : ps ≠ []) :
    (ps.map String.mk).getLastD "" = String.mk (ps.getLastD []) := by
  cases ps with
  | nil => exact absurd rfl h
  | cons p ps =>
    simp only [List.map_cons, List.getLastD_cons]
    induction ps generalizing p with
    | nil => rfl
    | cons q qs ih => simp only [List.map_cons, List.getLastD_cons]; exact ih q (by simp)

theorem dropLast_map_mk (ps : List (List Char)) :
    (ps.map String.mk).dropLast = ps.dropLast.map String.mk := by
  induction ps with
  | nil => rfl
  | cons p ps ih =>
    cases ps with
    | nil => rfl
    | cons q qs =>
      simp only [List.map_cons, List.dropLast_cons₂] at ih ⊢
      rw [ih]

theorem Join_map_mk (ps : List (List Char)) :
    Join (ps.map String.mk) "@" = String.mk (joinChars ['@'] ps) := by
  have h : (ps.map String.mk).map String.data = ps := by
    rw [List.map_map]
    exact List.map_id _
  unfold Join
  rw [h]

theorem New_cons (cnf : Config) (s : String) (others : List String) (db : Int) :
    New cnf (s :: others) db = some
      { ropt :=
          { Addrs :=
              if (Split s '@').length ≥ 2 then (Split s '@').getLastD "" :: others
              else s :: others
            DB := db
            Password := if (Split s '@').length ≥ 2 then Join (Split s '@').dropLast "@" else ""
            MasterName := match cnf.Redis with
              | some r => r.MasterName
              | none => "" }
        cluster := match cnf.Redis with
          | some r => r.ClusterEnabled
          | none => false } := by
  obtain ⟨expire, redis⟩ := cnf
  cases redis <;> rfl

/-- C9: for a non-empty address list with first address `s`, `New` builds the
options as follows.  If `s` has no `@`, the password is empty and the addresses
are unchanged.  If `s` has an `@`, the first address becomes the last piece of
`s` split at `@`, which contains no `@`, the password is the earlier pieces
joined with `@`, and password, `@` and address concatenated give back `s`; the
other addresses are unchanged. -/
theorem New_password_and_address (cnf : Config) (s : String) (others : List String)
    (db : Int) :
    ∃ c, New cnf (s :: others) db = some c ∧
      ('@' ∉ s.data → c.ropt.Password = "" ∧ c.ropt.Addrs = s :: others) ∧
      ('@' ∈ s.data → ∃ addr, c.ropt.Addrs = addr :: others ∧ '@' ∉ addr.data ∧
        addr = (Split s '@').getLastD "" ∧
        c.ropt.Password = Join (Split s '@').dropLast "@" ∧
        c.ropt.Password ++ "@" ++ addr = s) := by
  refine ⟨_, New_cons cnf s others db, ?_, ?_⟩
  · intro hno
    have hlen : ¬ (Split s '@').length ≥ 2 := by
      simp [Split, splitChars_of_not_mem '@' s.data hno]
    simp only [hlen, if_false, and_self]
  · intro hmem
    have hps : 2 ≤ (splitChars '@' s.data).length := splitChars_length_of_mem '@' s.data hmem
    have hne : splitChars '@' s.data ≠ [] := splitChars_ne_nil '@' s.data
    have hlen : (Split s '@').length ≥ 2 := by simpa [Split] using hps
    have hlast : (Split s '@').getLastD "" = String.mk ((splitChars '@' s.data).getLastD []) :=
      getLastD_map_mk _ hne
    have hpw : Join (Split s '@').dropLast "@"
        = String.mk (joinChars ['@'] (splitChars '@' s.data).dropLast) := by
      unfold Split
      rw [dropLast_map_mk, Join_map_mk]
    rw [if_pos hlen, if_pos hlen]
    refine ⟨_, rfl, ?_, rfl, rfl, ?_⟩
    · rw [hlast]
      exact splitChars_no_sep '@' s.data _ (getLastD_mem _ _ hne)
    · rw [hlast, hpw]
      apply String.ext
      simp only [String.data_append]
      exact (joinChars_dropLast_getLast ['@'] _ hps).trans (joinChars_splitChars '@' s.data)

theorem New_password_and_address_witness :
    ∃ c, New ⟨0, none⟩ ["secret@word@localhost:6379", "localhost:6380"] 0 = some c ∧
      ∃ addr, c.ropt.Addrs = [addr, "localhost:6380"] ∧ '@' ∉ addr.data ∧
        addr = (Split "secret@word@localhost:6379" '@').getLastD "" ∧
        c.ropt.Password = Join (Split "secret@word@localhost:6379" '@').dropLast "@" ∧
        c.ropt.Password ++ "@" ++ addr = "secret@word@localhost:6379" :=
  match New_password_and_address ⟨0, none⟩ "secret@word@localhost:6379" ["localhost:6380"] 0 with
  | ⟨c, hc, _, h⟩ => ⟨c, hc, h (by decide)⟩

end Machinery
